import Mathlib

/-!
Verification of the PPDet detection head
(`src/mmdet/models/anchor_heads/ppdet_head.py`).

The development shallowly embeds the training-time target builder
(`PPDetHead.ppdet_target_single`), the aggregation loss composer
(`PPDetHead.loss`), and the inference-time decoder
(`PPDetHead.get_bboxes_single` / `get_bboxes_single_aug`).

Modelling conventions:
* Real-valued tensors become exact rationals (`ℚ`); the decoder is generic
  over a `LinearOrderedField` so its theorems can be instantiated both at
  `ℚ` (for executable witnesses) and at `ℝ` with the genuine
  `Real.exp` / sigmoid nonlinearities.
* The source compares `sqrt(w*h)` against a level's scale range and sorts
  by `sqrt(w*h)`.  Since `Real.sqrt` is monotone and the configured range
  bounds are nonnegative, `lower ≤ sqrt a ∧ sqrt a ≤ upper` is equivalent
  to `lower^2 ≤ a ∧ a ≤ upper^2`, and descending `sqrt`-area order is
  descending plain-area order; the embedding uses the squared forms so
  that every definition stays executable over `ℚ`.
* `torch.log` applied when storing regression targets is kept at the
  statement boundary: the grid stores the clamped pre-log value (a
  rational), and theorems about the stored target mention
  `Real.log` of that value explicitly.  `torch.clamp(x, lo, hi)` is
  `min (max x lo) hi`, matching torch's evaluation order.
-/

namespace PPDet

/-- One ground-truth box of an image, in original image coordinates
(`x1, y1, x2, y2`), together with its (1-indexed foreground) class label. -/
structure GtBox where
  x1 : ℚ
  y1 : ℚ
  x2 : ℚ
  y2 : ℚ
  label : ℤ
deriving DecidableEq, Repr

/-- Static configuration of one feature level together with the feature-map
size used for this forward pass: downsampling `stride`, `base_len`
normalization constant, the level's scale range (`lower`, `upper`), the
shrink factor `sigma`, and the feature-map height `H` / width `W`. -/
structure LevelCfg where
  stride : ℚ
  baseLen : ℚ
  lower : ℚ
  upper : ℚ
  sigma : ℚ
  H : ℕ
  W : ℕ
deriving DecidableEq, Repr

/-- `(w, h) ↦ w * h` of a box: the square of the code's
`gt_areas = sqrt((x2 - x1) * (y2 - y1))`.  Comparisons and sort order on
`gt_areas` are mirrored on this square (see module docstring). -/
def areaSq (b : GtBox) : ℚ :=
  (b.x2 - b.x1) * (b.y2 - b.y1)

/-- Level selection (`(gt_areas >= lower_bound) & (gt_areas <= upper_bound)`),
expressed on squared areas. -/
def inScaleRange (cfg : LevelCfg) (b : GtBox) : Prop :=
  cfg.lower ^ 2 ≤ areaSq b ∧ areaSq b ≤ cfg.upper ^ 2

instance (cfg : LevelCfg) (b : GtBox) : Decidable (inScaleRange cfg b) := by
  unfold inScaleRange; infer_instance

/-- `hit_indices` of one level: the boxes (with their original index in the
image's box list, via `List.enum`) whose area falls in the scale range. -/
def selectedHits (cfg : LevelCfg) (boxes : List GtBox) : List (ℕ × GtBox) :=
  boxes.enum.filter (fun p => inScaleRange cfg p.2)

/-- Insertion step of the descending-by-area sort
(`torch.sort(-gt_areas[hit_indices])`). -/
def insertDescArea (p : ℕ × GtBox) : List (ℕ × GtBox) → List (ℕ × GtBox)
  | [] => [p]
  | q :: qs => if areaSq q.2 ≤ areaSq p.2 then p :: q :: qs else q :: insertDescArea p qs

/-- Sort the hit boxes by descending area (largest first), as the code's
`torch.sort(-gt_areas[hit_indices])` reordering does. -/
def sortDescArea (l : List (ℕ × GtBox)) : List (ℕ × GtBox) :=
  l.foldr insertDescArea []

/-- `torch.clamp` on integers: `min (max v lo) hi`. -/
def clampI (lo hi v : ℤ) : ℤ :=
  min (max v lo) hi

/-- `pos_left`: `ceil(gt_bboxes[:,0] + (1 - σ)·half_w - 0.5)` clamped into
`[0, W-1]`, where `gt_bboxes` is the raw box divided by the stride and
`half_w = 0.5 * (gt_bboxes[:,2] - gt_bboxes[:,0])`. -/
def posLeft (cfg : LevelCfg) (b : GtBox) : ℤ :=
  clampI 0 ((cfg.W : ℤ) - 1)
    ⌈b.x1 / cfg.stride + (1 - cfg.sigma) * (1/2 * (b.x2 / cfg.stride - b.x1 / cfg.stride)) - 1/2⌉

/-- `pos_right`: `floor(gt_bboxes[:,0] + (1 + σ)·half_w - 0.5)` clamped into
`[0, W-1]`. -/
def posRight (cfg : LevelCfg) (b : GtBox) : ℤ :=
  clampI 0 ((cfg.W : ℤ) - 1)
    ⌊b.x1 / cfg.stride + (1 + cfg.sigma) * (1/2 * (b.x2 / cfg.stride - b.x1 / cfg.stride)) - 1/2⌋

/-- `pos_top`: `ceil(gt_bboxes[:,1] + (1 - σ)·half_h - 0.5)` clamped into
`[0, H-1]`. -/
def posTop (cfg : LevelCfg) (b : GtBox) : ℤ :=
  clampI 0 ((cfg.H : ℤ) - 1)
    ⌈b.y1 / cfg.stride + (1 - cfg.sigma) * (1/2 * (b.y2 / cfg.stride - b.y1 / cfg.stride)) - 1/2⌉

/-- `pos_down`: `floor(gt_bboxes[:,1] + (1 + σ)·half_h - 0.5)` clamped into
`[0, H-1]`. -/
def posDown (cfg : LevelCfg) (b : GtBox) : ℤ :=
  clampI 0 ((cfg.H : ℤ) - 1)
    ⌊b.y1 / cfg.stride + (1 + cfg.sigma) * (1/2 * (b.y2 / cfg.stride - b.y1 / cfg.stride)) - 1/2⌋

/-- Grid cell `(r, c)` lies in the shrunk positive region of box `b`
(the slice `[py1 : py2+1, px1 : px2+1]`). -/
def inRegion (cfg : LevelCfg) (b : GtBox) (r c : ℕ) : Prop :=
  posTop cfg b ≤ (r : ℤ) ∧ (r : ℤ) ≤ posDown cfg b ∧
  posLeft cfg b ≤ (c : ℤ) ∧ (c : ℤ) ≤ posRight cfg b

instance (cfg : LevelCfg) (b : GtBox) (r c : ℕ) : Decidable (inRegion cfg b r c) := by
  unfold inRegion; infer_instance

/-- The raw (pre-clamp, pre-log) regression value painted at cell `(r, c)`
for box `b`: the four normalized side distances, computed from the box's
original unscaled coordinates and the cell-center grid point
`(r + 0.5, c + 0.5)` scaled by the stride. -/
def rawDist (cfg : LevelCfg) (b : GtBox) (r c : ℕ) : Fin 4 → ℚ
  | 0 => (cfg.stride * ((c : ℚ) + 1/2) - b.x1) / cfg.baseLen
  | 1 => (cfg.stride * ((r : ℚ) + 1/2) - b.y1) / cfg.baseLen
  | 2 => (b.x2 - cfg.stride * ((c : ℚ) + 1/2)) / cfg.baseLen
  | 3 => (b.y2 - cfg.stride * ((r : ℚ) + 1/2)) / cfg.baseLen

/-- The three co-indexed grids being painted: classification labels,
raw (pre-clamp) regression values, and instance ids. -/
structure PaintGrid where
  labels : ℕ → ℕ → ℤ
  regRaw : ℕ → ℕ → Fin 4 → ℚ
  gtIds : ℕ → ℕ → ℤ

/-- Initial grids: labels `0`, regression values `1`
(`gt_bboxes_raw.new(...) + 1`), instance ids `-1`. -/
def initGrid : PaintGrid where
  labels := fun _ _ => 0
  regRaw := fun _ _ _ => 1
  gtIds := fun _ _ => -1

/-- Paint one (index, box) pair onto the grids: every cell of its shrunk
positive region receives the box's label, the four raw side distances, and
the instance id `original index + offset` (`gt_id + label_size_list_raw`). -/
def paintOne (cfg : LevelCfg) (offset : ℤ) (g : PaintGrid) (p : ℕ × GtBox) : PaintGrid where
  labels := fun r c => if inRegion cfg p.2 r c then p.2.label else g.labels r c
  regRaw := fun r c ch => if inRegion cfg p.2 r c then rawDist cfg p.2 r c ch else g.regRaw r c ch
  gtIds := fun r c => if inRegion cfg p.2 r c then (p.1 : ℤ) + offset else g.gtIds r c

/-- Output grids of one level: labels, the clamped pre-log regression
target (the stored tensor is `Real.log` of `regPre`), and instance ids. -/
structure AssignGrid where
  labels : ℕ → ℕ → ℤ
  regPre : ℕ → ℕ → Fin 4 → ℚ
  gtIds : ℕ → ℕ → ℤ

/-- `torch.clamp(·, min=1/16, max=16)`. -/
def clamp116 (v : ℚ) : ℚ :=
  min (max v (1/16)) 16

/-- One level of `PPDetHead.ppdet_target_single`: select the boxes in the
level's scale range; if none, return background grids (the early
`continue` branch, whose regression tensor is the all-ones default);
otherwise sort descending by area, paint each box in order (later boxes
overwrite earlier cells), and clamp the regression values to `[1/16, 16]`.
The stored regression tensor is `Real.log` of the returned `regPre`. -/
def ppdetTargetSingleLevel (cfg : LevelCfg) (offset : ℤ) (boxes : List GtBox) : AssignGrid :=
  let hits := selectedHits cfg boxes
  if hits = [] then
    { labels := fun _ _ => 0
      regPre := fun _ _ _ => 1
      gtIds := fun _ _ => -1 }
  else
    let g := (sortDescArea hits).foldl (paintOne cfg offset) initGrid
    { labels := g.labels
      regPre := fun r c ch => clamp116 (g.regRaw r c ch)
      gtIds := g.gtIds }

/-- All levels of `PPDetHead.ppdet_target_single`: the per-level loop
bodies are independent, so the function is the per-level builder mapped
over the level configurations. -/
def ppdetTargetSingle (cfgs : List LevelCfg) (offset : ℤ) (boxes : List GtBox) :
    List AssignGrid :=
  cfgs.map (fun cfg => ppdetTargetSingleLevel cfg offset boxes)

/-- Accumulator step recording the most recent box whose positive region
covers cell `(r, c)`. -/
def coverStep (cfg : LevelCfg) (r c : ℕ) (acc : Option (ℕ × GtBox)) (p : ℕ × GtBox) :
    Option (ℕ × GtBox) :=
  if inRegion cfg p.2 r c then some p else acc

/-- The last element of `l` (in paint order) whose positive region covers
cell `(r, c)`, if any: the box whose values the cell ends up holding. -/
def lastCover (cfg : LevelCfg) (l : List (ℕ × GtBox)) (r c : ℕ) : Option (ℕ × GtBox) :=
  l.foldl (coverStep cfg r c) none

lemma foldl_coverStep_eq (cfg : LevelCfg) (r c : ℕ) :
    ∀ (l : List (ℕ × GtBox)) (acc : Option (ℕ × GtBox)),
      l.foldl (coverStep cfg r c) acc =
        (match lastCover cfg l r c with
         | some p => some p
         | none => acc) := by
  intro l
  induction l with
  | nil => intro acc; rfl
  | cons p l ih =>
    intro acc
    have hl : lastCover cfg (p :: l) r c
        = (match lastCover cfg l r c with
           | some q => some q
           | none => coverStep cfg r c none p) := by
      simpa [lastCover, List.foldl_cons] using ih (coverStep cfg r c none p)
    rw [List.foldl_cons, ih (coverStep cfg r c acc p), hl]
    cases hcov : lastCover cfg l r c with
    | some q => rfl
    | none =>
      by_cases hin : inRegion cfg p.2 r c <;> simp [coverStep, hin]

/-- After painting the list `l` in order onto grids `g`, a cell holds the
label, instance id and raw regression values of the last box in `l` that
covers it, or `g`'s values if no box covers it. -/
lemma paint_foldl_spec (cfg : LevelCfg) (off : ℤ) (r c : ℕ) :
    ∀ (l : List (ℕ × GtBox)) (g : PaintGrid),
      ((l.foldl (paintOne cfg off) g).labels r c
        = (match lastCover cfg l r c with
           | some p => p.2.label
           | none => g.labels r c)) ∧
      ((l.foldl (paintOne cfg off) g).gtIds r c
        = (match lastCover cfg l r c with
           | some p => (p.1 : ℤ) + off
           | none => g.gtIds r c)) ∧
      ∀ ch, (l.foldl (paintOne cfg off) g).regRaw r c ch
        = (match lastCover cfg l r c with
           | some p => rawDist cfg p.2 r c ch
           | none => g.regRaw r c ch) := by
  intro l
  induction l with
  | nil => intro g; exact ⟨rfl, rfl, fun _ => rfl⟩
  | cons p l ih =>
    intro g
    have hl : lastCover cfg (p :: l) r c
        = (match lastCover cfg l r c with
           | some q => some q
           | none => coverStep cfg r c none p) := by
      simpa [lastCover, List.foldl_cons] using
        foldl_coverStep_eq cfg r c l (coverStep cfg r c none p)
    obtain ⟨h1, h2, h3⟩ := ih (paintOne cfg off g p)
    rw [List.foldl_cons] at *
    refine ⟨?_, ?_, ?_⟩
    · rw [h1, hl]
      cases hcov : lastCover cfg l r c with
      | some q => rfl
      | none =>
        by_cases hin : inRegion cfg p.2 r c <;> simp [coverStep, paintOne, hin]
    · rw [h2, hl]
      cases hcov : lastCover cfg l r c with
      | some q => rfl
      | none =>
        by_cases hin : inRegion cfg p.2 r c <;> simp [coverStep, paintOne, hin]
    · intro ch
      rw [h3 ch, hl]
      cases hcov : lastCover cfg l r c with
      | some q => rfl
      | none =>
        by_cases hin : inRegion cfg p.2 r c <;> simp [coverStep, paintOne, hin]

lemma lastCover_mem {cfg : LevelCfg} {r c : ℕ} :
    ∀ {l : List (ℕ × GtBox)} {p : ℕ × GtBox}, lastCover cfg l r c = some p → p ∈ l := by
  intro l
  induction l with
  | nil => intro p h; exact absurd h (by simp [lastCover])
  | cons q l ih =>
    intro p h
    have h' : (match lastCover cfg l r c with
               | some u => some u
               | none => coverStep cfg r c none q) = some p := by
      rw [← h]
      simpa [lastCover, List.foldl_cons] using
        (foldl_coverStep_eq cfg r c l (coverStep cfg r c none q)).symm
    cases hcov : lastCover cfg l r c with
    | some u =>
      rw [hcov] at h'
      exact List.mem_cons_of_mem _ (ih (hcov.trans h'))
    | none =>
      rw [hcov] at h'
      by_cases hin : inRegion cfg q.2 r c
      · simp [coverStep, hin] at h'
        exact h' ▸ List.mem_cons_self _ _
      · simp [coverStep, hin] at h'

lemma mem_insertDescArea {p q : ℕ × GtBox} :
    ∀ {l : List (ℕ × GtBox)}, q ∈ insertDescArea p l → q = p ∨ q ∈ l := by
  intro l
  induction l with
  | nil =>
    intro h
    simp [insertDescArea] at h
    exact Or.inl h
  | cons u l ih =>
    intro h
    rw [insertDescArea] at h
    by_cases hle : areaSq u.2 ≤ areaSq p.2
    · rw [if_pos hle] at h
      rcases List.mem_cons.mp h with h' | h'
      · exact Or.inl h'
      · exact Or.inr h'
    · rw [if_neg hle] at h
      rcases List.mem_cons.mp h with h' | h'
      · exact Or.inr (h' ▸ List.mem_cons_self _ _)
      · rcases ih h' with h'' | h''
        · exact Or.inl h''
        · exact Or.inr (List.mem_cons_of_mem _ h'')

lemma mem_sortDescArea {q : ℕ × GtBox} :
    ∀ {l : List (ℕ × GtBox)}, q ∈ sortDescArea l → q ∈ l := by
  intro l
  induction l with
  | nil =>
    intro h
    simp [sortDescArea] at h
  | cons p l ih =>
    intro h
    rcases mem_insertDescArea (l := sortDescArea l) h with h' | h'
    · exact h' ▸ List.mem_cons_self _ _
    · exact List.mem_cons_of_mem _ (ih h')

lemma snd_mem_of_mem_enumFrom {α : Type} :
    ∀ (l : List α) (n : ℕ) (p : ℕ × α), p ∈ l.enumFrom n → p.2 ∈ l := by
  intro l
  induction l with
  | nil => intro n p h; simp [List.enumFrom] at h
  | cons a l ih =>
    intro n p h
    rw [List.enumFrom] at h
    rcases List.mem_cons.mp h with h' | h'
    · rw [h']
      exact List.mem_cons_self _ _
    · exact List.mem_cons_of_mem _ (ih (n + 1) p h')

lemma mem_selectedHits_snd {cfg : LevelCfg} {boxes : List GtBox} {p : ℕ × GtBox}
    (h : p ∈ selectedHits cfg boxes) : p.2 ∈ boxes := by
  have h' : p ∈ boxes.enum := List.mem_of_mem_filter h
  exact snd_mem_of_mem_enumFrom boxes 0 p h'

/-- Concrete fixture: one level with stride 1, base edge 16, a scale range
covering everything, `σ = 0.4` and a 40×40 feature map. -/
def cfg40 : LevelCfg := ⟨1, 16, 0, 1000, 2/5, 40, 40⟩

/-- Concrete fixture: a 20×20 box with class label 1. -/
def box20 : GtBox := ⟨0, 0, 20, 20, 1⟩

/-- Concrete fixture: a 16×16 box with class label 2. -/
def box16 : GtBox := ⟨0, 0, 16, 16, 2⟩

/-- Concrete fixture: a 12×12 box with class label 3. -/
def box12 : GtBox := ⟨0, 0, 12, 12, 3⟩

/-- The horizontal left bound exactly as claim C1 states it:
`ceil(x_center + (1-σ)·half_w - 0.5)` with `x_center` the box *center* in
stride units, clamped into `[0, W-1]`.  (Stated from the claim's words,
for comparison with the program's `posLeft`.) -/
def claimPosLeft (cfg : LevelCfg) (b : GtBox) : ℤ :=
  clampI 0 ((cfg.W : ℤ) - 1)
    ⌈(b.x1 + b.x2) / (2 * cfg.stride)
      + (1 - cfg.sigma) * (1/2 * (b.x2 / cfg.stride - b.x1 / cfg.stride)) - 1/2⌉

/-- C1 (counterexample): the program's left bound is computed from the
box's *left edge* `gt_bboxes[:, 0]`, not from the box center, so the
claimed formula `ceil(x_center + (1-σ)·half_w - 0.5)` disagrees with the
code already on a 20×20 box at stride 1 (code: 6, claim: 16). -/
theorem c1_counterexample : posLeft cfg40 box20 ≠ claimPosLeft cfg40 box20 := by
  with_unfolding_all decide

/-- C1 (amended): for every level and box (stride nonzero), the shrunk
positive region's bounds are `left = ceil(x_center - σ·half_w - 0.5)`,
`right = floor(x_center + σ·half_w - 0.5)` (and symmetrically
`top`/`bottom` with `y_center`, `half_h`), each clamped into
`[0, dim - 1]`, where `x_center` and `half_w` are the box center and
half-width in the level's stride units: the region is symmetric about the
center, `[center - σ·half, center + σ·half]`, before the `-0.5` shift and
rounding. -/
theorem c1_region_bounds (cfg : LevelCfg) (b : GtBox) (hs : cfg.stride ≠ 0) :
    posLeft cfg b = clampI 0 ((cfg.W : ℤ) - 1)
        ⌈(b.x1 + b.x2) / (2 * cfg.stride)
          - cfg.sigma * ((b.x2 - b.x1) / (2 * cfg.stride)) - 1/2⌉ ∧
    posRight cfg b = clampI 0 ((cfg.W : ℤ) - 1)
        ⌊(b.x1 + b.x2) / (2 * cfg.stride)
          + cfg.sigma * ((b.x2 - b.x1) / (2 * cfg.stride)) - 1/2⌋ ∧
    posTop cfg b = clampI 0 ((cfg.H : ℤ) - 1)
        ⌈(b.y1 + b.y2) / (2 * cfg.stride)
          - cfg.sigma * ((b.y2 - b.y1) / (2 * cfg.stride)) - 1/2⌉ ∧
    posDown cfg b = clampI 0 ((cfg.H : ℤ) - 1)
        ⌊(b.y1 + b.y2) / (2 * cfg.stride)
          + cfg.sigma * ((b.y2 - b.y1) / (2 * cfg.stride)) - 1/2⌋ := by
  refine ⟨?_, ?_, ?_, ?_⟩
  · unfold posLeft
    congr 2
    field_simp
    ring
  · unfold posRight
    congr 2
    field_simp
    ring
  · unfold posTop
    congr 2
    field_simp
    ring
  · unfold posDown
    congr 2
    field_simp
    ring

/-- Witness for C1 (amended) at the concrete stride-1 level and 20×20 box. -/
theorem c1_witness :
    posLeft cfg40 box20 = clampI 0 ((cfg40.W : ℤ) - 1)
        ⌈(box20.x1 + box20.x2) / (2 * cfg40.stride)
          - cfg40.sigma * ((box20.x2 - box20.x1) / (2 * cfg40.stride)) - 1/2⌉ ∧
    posRight cfg40 box20 = clampI 0 ((cfg40.W : ℤ) - 1)
        ⌊(box20.x1 + box20.x2) / (2 * cfg40.stride)
          + cfg40.sigma * ((box20.x2 - box20.x1) / (2 * cfg40.stride)) - 1/2⌋ ∧
    posTop cfg40 box20 = clampI 0 ((cfg40.H : ℤ) - 1)
        ⌈(box20.y1 + box20.y2) / (2 * cfg40.stride)
          - cfg40.sigma * ((box20.y2 - box20.y1) / (2 * cfg40.stride)) - 1/2⌉ ∧
    posDown cfg40 box20 = clampI 0 ((cfg40.H : ℤ) - 1)
        ⌊(box20.y1 + box20.y2) / (2 * cfg40.stride)
          + cfg40.sigma * ((box20.y2 - box20.y1) / (2 * cfg40.stride)) - 1/2⌋ :=
  c1_region_bounds cfg40 box20 (by with_unfolding_all decide)

/-- C3 (counterexample): with three nested boxes on one level, the pair
(20×20 box, 16×16 box) has different areas, both are selected, their
shrunk regions share cell `(7,7)` — yet that cell ends up holding the
12×12 box's label and instance id, not the 16×16 box's: the claim fails
whenever a third, smaller selected box also covers the intersection. -/
theorem c3_counterexample :
    areaSq box16 < areaSq box20 ∧
    (0, box20) ∈ selectedHits cfg40 [box20, box16, box12] ∧
    (1, box16) ∈ selectedHits cfg40 [box20, box16, box12] ∧
    inRegion cfg40 box20 7 7 ∧ inRegion cfg40 box16 7 7 ∧
    (ppdetTargetSingleLevel cfg40 0 [box20, box16, box12]).labels 7 7 ≠ box16.label ∧
    (ppdetTargetSingleLevel cfg40 0 [box20, box16, box12]).gtIds 7 7 ≠ 1 := by
  with_unfolding_all decide

/-- C3 (amended): when a level selects exactly two boxes with different
area scores whose shrunk positive regions overlap, every cell in the
intersection of the two regions holds the smaller box's class label and
instance id — boxes are painted in descending area order and the later
paint overwrites earlier cells. -/
theorem c3_smaller_box_wins (cfg : LevelCfg) (offset : ℤ) (boxes : List GtBox)
    (p q : ℕ × GtBox) (hsel : selectedHits cfg boxes = [p, q])
    (_hne : areaSq p.2 ≠ areaSq q.2) (r c : ℕ)
    (hp : inRegion cfg p.2 r c) (hq : inRegion cfg q.2 r c) :
    (ppdetTargetSingleLevel cfg offset boxes).labels r c
        = (if areaSq p.2 < areaSq q.2 then p else q).2.label ∧
    (ppdetTargetSingleLevel cfg offset boxes).gtIds r c
        = ((if areaSq p.2 < areaSq q.2 then p else q).1 : ℤ) + offset := by
  unfold ppdetTargetSingleLevel
  rw [hsel, if_neg (by simp)]
  by_cases hle : areaSq q.2 ≤ areaSq p.2
  · have hs : sortDescArea [p, q] = [p, q] := by
      simp [sortDescArea, insertDescArea, hle]
    have hlt : ¬ areaSq p.2 < areaSq q.2 := not_lt.mpr hle
    rw [hs]
    simp [List.foldl, paintOne, hp, hq, hlt]
  · have hs : sortDescArea [p, q] = [q, p] := by
      simp [sortDescArea, insertDescArea, hle]
    have hlt : areaSq p.2 < areaSq q.2 := lt_of_not_le hle
    rw [hs]
    simp [List.foldl, paintOne, hp, hq, hlt]

/-- Witness for C3 (amended): two boxes only, the smaller (16×16, label 2,
instance 1) wins at shared cell `(7,7)`. -/
theorem c3_witness :
    (ppdetTargetSingleLevel cfg40 0 [box20, box16]).labels 7 7
        = (if areaSq box20 < areaSq box16 then ((0 : ℕ), box20) else (1, box16)).2.label ∧
    (ppdetTargetSingleLevel cfg40 0 [box20, box16]).gtIds 7 7
        = ((if areaSq box20 < areaSq box16 then ((0 : ℕ), box20) else (1, box16)).1 : ℤ) + 0 :=
  c3_smaller_box_wins cfg40 0 [box20, box16] (0, box20) (1, box16)
    (by with_unfolding_all decide) (by with_unfolding_all decide) 7 7
    (by with_unfolding_all decide) (by with_unfolding_all decide)

lemma level_label_iff_id (cfg : LevelCfg) (offset : ℤ) (boxes : List GtBox)
    (hlab : ∀ b ∈ boxes, 1 ≤ b.label) (hoff : 0 ≤ offset) (r c : ℕ) :
    (ppdetTargetSingleLevel cfg offset boxes).labels r c = 0 ↔
    (ppdetTargetSingleLevel cfg offset boxes).gtIds r c = -1 := by
  unfold ppdetTargetSingleLevel
  by_cases hh : selectedHits cfg boxes = []
  · rw [hh, if_pos rfl]
    simp
  · rw [if_neg hh]
    obtain ⟨h1, h2, -⟩ :=
      paint_foldl_spec cfg offset r c (sortDescArea (selectedHits cfg boxes)) initGrid
    show ((sortDescArea (selectedHits cfg boxes)).foldl (paintOne cfg offset) initGrid).labels r c = 0
      ↔ ((sortDescArea (selectedHits cfg boxes)).foldl (paintOne cfg offset) initGrid).gtIds r c = -1
    rw [h1, h2]
    cases hcov : lastCover cfg (sortDescArea (selectedHits cfg boxes)) r c with
    | some p =>
      have hmem : p.2 ∈ boxes :=
        mem_selectedHits_snd (mem_sortDescArea (lastCover_mem hcov))
      have hl : 1 ≤ p.2.label := hlab p.2 hmem
      have hnn : (0 : ℤ) ≤ (p.1 : ℤ) := Int.natCast_nonneg p.1
      change p.2.label = 0 ↔ (p.1 : ℤ) + offset = -1
      constructor <;> intro h <;> omega
    | none => simp [initGrid]

/-- C6: for every assignment grid produced by `ppdet_target_single`
(any level), provided every ground-truth label is a foreground class id
`≥ 1` and the image's instance-id offset is nonnegative, a cell holds
label 0 if and only if it holds instance id -1. -/
theorem c6_background_iff_no_instance (cfgs : List LevelCfg) (offset : ℤ) (boxes : List GtBox)
    (hlab : ∀ b ∈ boxes, 1 ≤ b.label) (hoff : 0 ≤ offset) :
    ∀ g ∈ ppdetTargetSingle cfgs offset boxes, ∀ r c : ℕ,
      g.labels r c = 0 ↔ g.gtIds r c = -1 := by
  intro g hg r c
  obtain ⟨cfg, _, rfl⟩ := List.mem_map.mp hg
  exact level_label_iff_id cfg offset boxes hlab hoff r c

/-- Witness for C6 on a concrete one-level, two-box configuration,
evaluated at the painted cell `(7,7)` of the produced grid. -/
theorem c6_witness :
    (ppdetTargetSingleLevel cfg40 0 [box20, box16]).labels 7 7 = 0 ↔
    (ppdetTargetSingleLevel cfg40 0 [box20, box16]).gtIds 7 7 = -1 :=
  c6_background_iff_no_instance [cfg40] 0 [box20, box16]
    (by with_unfolding_all decide) (by with_unfolding_all decide)
    (ppdetTargetSingleLevel cfg40 0 [box20, box16]) (by simp [ppdetTargetSingle]) 7 7

lemma regPre_eq (cfg : LevelCfg) (offset : ℤ) (boxes : List GtBox) (r c : ℕ) (ch : Fin 4) :
    (ppdetTargetSingleLevel cfg offset boxes).regPre r c ch =
      (match lastCover cfg (sortDescArea (selectedHits cfg boxes)) r c with
       | some p => clamp116 (rawDist cfg p.2 r c ch)
       | none => 1) := by
  unfold ppdetTargetSingleLevel
  by_cases hh : selectedHits cfg boxes = []
  · rw [hh, if_pos rfl]
    show (1 : ℚ) = _
    simp [sortDescArea, lastCover]
  · rw [if_neg hh]
    obtain ⟨-, -, h3⟩ :=
      paint_foldl_spec cfg offset r c (sortDescArea (selectedHits cfg boxes)) initGrid
    show clamp116 (((sortDescArea (selectedHits cfg boxes)).foldl
        (paintOne cfg offset) initGrid).regRaw r c ch) = _
    rw [h3 ch]
    cases hcov : lastCover cfg (sortDescArea (selectedHits cfg boxes)) r c with
    | some p => rfl
    | none =>
      show clamp116 1 = (1 : ℚ)
      rw [clamp116, max_eq_left (by norm_num), min_eq_left (by norm_num)]

lemma clamp116_pos (v : ℚ) : 0 < clamp116 v :=
  lt_of_lt_of_le (by norm_num) (le_min (le_max_right _ _) (by norm_num))

/-- C5: round-trip of the regression encoding.  For every cell, if box
`p` is the one that painted the cell (the last covering box in paint
order), exponentiating each stored (logged) regression-target channel
recovers `clamp(d, 1/16, 16)` for the cell's normalized side distance `d`
computed from `p`'s original unscaled coordinates; a cell covered by no
box yields `exp(target) = 1` in all four channels. -/
theorem c5_regression_roundtrip (cfg : LevelCfg) (offset : ℤ) (boxes : List GtBox) (r c : ℕ) :
    (∀ p, lastCover cfg (sortDescArea (selectedHits cfg boxes)) r c = some p →
       ∀ ch, Real.exp (Real.log (((ppdetTargetSingleLevel cfg offset boxes).regPre r c ch : ℚ) : ℝ))
         = ((clamp116 (rawDist cfg p.2 r c ch) : ℚ) : ℝ)) ∧
    (lastCover cfg (sortDescArea (selectedHits cfg boxes)) r c = none →
       ∀ ch, Real.exp (Real.log (((ppdetTargetSingleLevel cfg offset boxes).regPre r c ch : ℚ) : ℝ))
         = 1) := by
  constructor
  · intro p hp ch
    rw [regPre_eq cfg offset boxes r c ch, hp]
    exact Real.exp_log (by exact_mod_cast clamp116_pos _)
  · intro hn ch
    rw [regPre_eq cfg offset boxes r c ch, hn]
    simp

/-- Witness for C5 at the concrete one-box level, painted cell `(7,7)`,
channel 0. -/
theorem c5_witness :
    Real.exp (Real.log (((ppdetTargetSingleLevel cfg40 0 [box20]).regPre 7 7 0 : ℚ) : ℝ))
      = ((clamp116 (rawDist cfg40 box20 7 7 0) : ℚ) : ℝ) :=
  (c5_regression_roundtrip cfg40 0 [box20] 7 7).1 (0, box20)
    (by with_unfolding_all decide) 0

/-- One flattened cell of the batch, as seen by `PPDetHead.loss` after the
level-major flattening: its target label, its instance id, its raw
per-class score row (`flatten_cls_scores`), its raw regression prediction
row (`flatten_bbox_preds`) and its regression target row
(`flatten_bbox_targets`). -/
structure Cell where
  label : ℤ
  id : ℤ
  score : List ℚ
  pred : List ℚ
  target : List ℚ
deriving DecidableEq, Repr

/-- Elementwise sum of two score rows. -/
def addRows (a b : List ℚ) : List ℚ :=
  List.zipWith (· + ·) a b

/-- Elementwise sum of a list of score rows. -/
def sumRows : List (List ℚ) → List ℚ
  | [] => []
  | r :: rs => rs.foldl addRows r

/-- `tensor.mean(dim=0)` over a list of equal-length score rows. -/
def meanRows (rs : List (List ℚ)) : List ℚ :=
  (sumRows rs).map (fun v => v / (rs.length : ℚ))

/-- `aggregation_indices = (flatten_ids == i).nonzero()`: the cells of the
batch whose instance id equals `i`. -/
def hitCells (cells : List Cell) (i : ℕ) : List Cell :=
  cells.filter (fun x => x.id = (i : ℤ))

/-- The initial sample set of the classification loss:
`agg_labels = flatten_labels[neg_inds]`, `agg_cls_scores =
flatten_cls_scores[neg_inds]` with `neg_inds = (flatten_labels <= 0)`. -/
def negSamples (cells : List Cell) : List (List ℚ × ℤ) :=
  (cells.filter (fun x => x.label ≤ 0)).map (fun x => (x.score, x.label))

/-- One iteration of the aggregation loop in `PPDetHead.loss`: if instance
`p.1` (with class label `p.2`) has at least one covering cell, prepend the
elementwise mean of those cells' raw score rows, paired with the class
label, and count one more aggregated positive. -/
def aggStep (cells : List Cell) (st : List (List ℚ × ℤ) × ℕ) (p : ℕ × ℤ) :
    List (List ℚ × ℤ) × ℕ :=
  if (hitCells cells p.1).length ≠ 0 then
    ((meanRows ((hitCells cells p.1).map Cell.score), p.2) :: st.1, st.2 + 1)
  else st

/-- The classification sample set and `num_agg_pos` built by the
`for i, class_id in enumerate(all_gt_label_list)` loop of
`PPDetHead.loss`, starting from the negative cells. -/
def aggSamples (cells : List Cell) (gtLabels : List ℤ) : List (List ℚ × ℤ) × ℕ :=
  gtLabels.enum.foldl (aggStep cells) (negSamples cells, 0)

/-- The classification loss normalizer
`avg_factor = num_agg_pos + num_imgs`. -/
def avgFactor (cells : List Cell) (gtLabels : List ℤ) (numImgs : ℕ) : ℕ :=
  (aggSamples cells gtLabels).2 + numImgs

/-- The regression-loss branch of `PPDetHead.loss`: if there is at least
one positive cell, apply the (external) regression loss primitive to the
positive cells' predictions, targets, all-ones weights and the positive
count as `avg_factor`; otherwise return the scalar 0. -/
def regLoss (cells : List Cell)
    (lossFn : List (List ℚ) → List (List ℚ) → List (List ℚ) → ℕ → ℚ) : ℚ :=
  let pos := cells.filter (fun x => 0 < x.label)
  if 0 < pos.length then
    lossFn (pos.map Cell.pred) (pos.map Cell.target) (pos.map (fun _ => [1, 1, 1, 1])) pos.length
  else 0

/-- Following the claim's words: one aggregated row per ground-truth
instance that has at least one covering cell — the elementwise mean of the
covering cells' raw score rows, paired with the instance's true class
label, in instance order. -/
def specHitSamples (cells : List Cell) (gtLabels : List ℤ) : List (List ℚ × ℤ) :=
  (gtLabels.enum.filter (fun p => (hitCells cells p.1).length ≠ 0)).map
    (fun p => (meanRows ((hitCells cells p.1).map Cell.score), p.2))

lemma aggFold_eq (cells : List Cell) :
    ∀ (l : List (ℕ × ℤ)) (st : List (List ℚ × ℤ) × ℕ),
      l.foldl (aggStep cells) st =
        (((l.filter (fun p => (hitCells cells p.1).length ≠ 0)).map
            (fun p => (meanRows ((hitCells cells p.1).map Cell.score), p.2))).reverse ++ st.1,
         st.2 + (l.filter (fun p => (hitCells cells p.1).length ≠ 0)).length) := by
  intro l
  induction l with
  | nil => intro st; simp
  | cons p l ih =>
    intro st
    rw [List.foldl_cons, ih (aggStep cells st p)]
    by_cases hp : (hitCells cells p.1).length ≠ 0
    · rw [aggStep, if_pos hp, List.filter_cons_of_pos (by simpa using hp)]
      simp only [List.map_cons, List.reverse_cons, List.append_assoc, List.singleton_append,
        List.length_cons, Prod.mk.injEq]
      exact ⟨trivial, by omega⟩
    · rw [aggStep, if_neg hp, List.filter_cons_of_neg (by simpa using hp)]

/-- C2: the classification-loss sample multiset equals the raw score rows
of all cells with label ≤ 0 (labelled 0) plus one aggregated row per hit
instance (the elementwise mean of the covering cells' raw score rows,
paired with the instance's true class label); `num_agg_pos` is the number
of hit instances and the classification `avg_factor` is that number plus
the number of images. -/
theorem c2_classification_samples (cells : List Cell) (gtLabels : List ℤ) (numImgs : ℕ)
    (hlab : ∀ x ∈ cells, 0 ≤ x.label) :
    ((aggSamples cells gtLabels).1 : Multiset (List ℚ × ℤ))
        = (((cells.filter (fun x => x.label ≤ 0)).map (fun x => (x.score, (0 : ℤ)))) :
            Multiset (List ℚ × ℤ))
          + (specHitSamples cells gtLabels : Multiset (List ℚ × ℤ)) ∧
    (aggSamples cells gtLabels).2 = (specHitSamples cells gtLabels).length ∧
    avgFactor cells gtLabels numImgs = (specHitSamples cells gtLabels).length + numImgs := by
  have hneg : negSamples cells
      = (cells.filter (fun x => x.label ≤ 0)).map (fun x => (x.score, (0 : ℤ))) := by
    unfold negSamples
    refine List.map_congr_left (fun x hx => ?_)
    have h1 : x.label ≤ 0 := by simpa using (List.mem_filter.mp hx).2
    have h2 : (0 : ℤ) ≤ x.label := hlab x (List.mem_filter.mp hx).1
    rw [le_antisymm h1 h2]
  have h := aggFold_eq cells gtLabels.enum (negSamples cells, 0)
  unfold aggSamples avgFactor aggSamples specHitSamples
  rw [h, hneg]
  refine ⟨?_, by simp [List.length_map], by simp [List.length_map]⟩
  show ((((gtLabels.enum.filter _).map _).reverse ++ _ : List (List ℚ × ℤ)) :
      Multiset (List ℚ × ℤ)) = _
  rw [← Multiset.coe_add, Multiset.coe_reverse]
  exact add_comm _ _

/-- Witness cells for the loss-composer claims: one background cell and
one positive cell covered by instance 0. -/
def cellNeg : Cell := ⟨0, -1, [1, 2], [0, 0, 0, 0], [0, 0, 0, 0]⟩

/-- A positive cell belonging to instance 0 with class label 1. -/
def cellPos : Cell := ⟨1, 0, [3, 4], [1, 1, 1, 1], [0, 0, 0, 0]⟩

/-- Witness for C2 at a concrete two-cell batch with one hit instance. -/
theorem c2_witness :
    ((aggSamples [cellNeg, cellPos] [1]).1 : Multiset (List ℚ × ℤ))
        = ((([cellNeg, cellPos].filter (fun x => x.label ≤ 0)).map
              (fun x => (x.score, (0 : ℤ)))) : Multiset (List ℚ × ℤ))
          + (specHitSamples [cellNeg, cellPos] [1] : Multiset (List ℚ × ℤ)) ∧
    (aggSamples [cellNeg, cellPos] [1]).2 = (specHitSamples [cellNeg, cellPos] [1]).length ∧
    avgFactor [cellNeg, cellPos] [1] 2 = (specHitSamples [cellNeg, cellPos] [1]).length + 2 :=
  c2_classification_samples [cellNeg, cellPos] [1] 2 (by with_unfolding_all decide)

/-- C7: if the batch contains zero positive cells (every label ≤ 0, hence
every instance id is -1), the loss returns a regression loss equal to the
scalar 0 — the `else` branch, no loss primitive involved — while the
classification samples are exactly the negative (= all) cells' rows and
the classification `avg_factor` is `0 + num_imgs`. -/
theorem c7_zero_positives (cells : List Cell) (gtLabels : List ℤ) (numImgs : ℕ)
    (lossFn : List (List ℚ) → List (List ℚ) → List (List ℚ) → ℕ → ℚ)
    (hneg : ∀ x ∈ cells, x.label ≤ 0) (hid : ∀ x ∈ cells, x.id = -1) :
    regLoss cells lossFn = 0 ∧
    (aggSamples cells gtLabels).1 = cells.map (fun x => (x.score, x.label)) ∧
    avgFactor cells gtLabels numImgs = numImgs := by
  have hpos : cells.filter (fun x => 0 < x.label) = [] := by
    refine List.filter_eq_nil_iff.mpr (fun x hx => ?_)
    simpa using not_lt.mpr (hneg x hx)
  have hhit : ∀ p : ℕ × ℤ, ¬ (hitCells cells p.1).length ≠ 0 := by
    intro p
    have : hitCells cells p.1 = [] := by
      refine List.filter_eq_nil_iff.mpr (fun x hx => ?_)
      have h1 := hid x hx
      have h2 := Int.natCast_nonneg p.1
      simp only [decide_eq_true_eq]
      omega
    simp [this]
  have hfil : gtLabels.enum.filter (fun p => (hitCells cells p.1).length ≠ 0) = [] :=
    List.filter_eq_nil_iff.mpr (fun p hp => by simpa using hhit p)
  have hnegall : cells.filter (fun x => x.label ≤ 0) = cells :=
    List.filter_eq_self.mpr (fun x hx => by simpa using hneg x hx)
  refine ⟨?_, ?_, ?_⟩
  · unfold regLoss
    rw [hpos]
    simp
  · unfold aggSamples
    rw [aggFold_eq cells gtLabels.enum (negSamples cells, 0), hfil]
    simp [negSamples, hnegall]
  · unfold avgFactor aggSamples
    rw [aggFold_eq cells gtLabels.enum (negSamples cells, 0), hfil]
    simp

/-- Witness for C7: a batch with a single background cell, and a loss
primitive that would return 99 if it were (wrongly) invoked. -/
theorem c7_witness :
    regLoss [cellNeg] (fun _ _ _ _ => 99) = 0 ∧
    (aggSamples [cellNeg] [2]).1 = [cellNeg].map (fun x => (x.score, x.label)) ∧
    avgFactor [cellNeg] [2] 1 = 1 :=
  c7_zero_positives [cellNeg] [2] 1 (fun _ _ _ _ => 99)
    (by with_unfolding_all decide) (by with_unfolding_all decide)

section Decoder

variable {K : Type} [LinearOrderedField K]

/-- Per-level raw predictions for one image, already reshaped to one row
per cell (the `permute(1, 2, 0).reshape(-1, ·)` step): raw class score
rows, raw regression rows (as 4-tuples), and the flattened grid points
`(y, x)`. -/
structure LevelPred (K : Type) where
  scores : List (List K)
  preds : List (K × K × K × K)
  pts : List (K × K)

/-- `cls_out_channels = num_classes - 1` (from `PPDetHead.__init__`). -/
def clsOutChannels (numClasses : ℕ) : ℕ :=
  numClasses - 1

/-- `scores.max(dim=1)` for one row.  Sigmoid scores are nonnegative, so
folding `max` from 0 agrees with torch's row maximum on nonempty rows. -/
def rowMax (row : List K) : K :=
  row.foldr max 0

/-- Insertion step of the descending sort of cell indices by score used to
model `topk`. -/
def insertIdxDesc (vals : List K) (i : ℕ) : List ℕ → List ℕ
  | [] => [i]
  | j :: js => if vals.getD j 0 ≤ vals.getD i 0 then i :: j :: js else j :: insertIdxDesc vals i js

/-- All cell indices sorted by descending score value. -/
def sortIdxDesc (vals : List K) : List ℕ :=
  (List.range vals.length).foldr (insertIdxDesc vals) []

/-- `max_scores.topk(nms_pre)`: the indices of the `k` largest values. -/
def topkIdx (k : ℕ) (vals : List K) : List ℕ :=
  (sortIdxDesc vals).take k

/-- The box reconstructed at one retained cell before clamping:
`(stride·x - base_edge·e₀, stride·y - base_edge·e₁,
  stride·x + base_edge·e₂, stride·y + base_edge·e₃)` where `e` is the
exponentiated regression prediction and `pt = (y, x)`. -/
def decodeRawBox (stride baseLen : K) (pt : K × K) (e : K × K × K × K) :
    K × K × K × K :=
  (stride * pt.2 - baseLen * e.1,
   stride * pt.1 - baseLen * e.2.1,
   stride * pt.2 + baseLen * e.2.2.1,
   stride * pt.1 + baseLen * e.2.2.2)

/-- `torch.clamp` in the field `K`. -/
def clampK (lo hi v : K) : K :=
  min (max v lo) hi

/-- The per-coordinate clamp of a decoded box to
`[0, img_w - 1] × [0, img_h - 1]`. -/
def clampBox (imgH imgW : K) (b : K × K × K × K) : K × K × K × K :=
  (clampK 0 (imgW - 1) b.1, clampK 0 (imgH - 1) b.2.1,
   clampK 0 (imgW - 1) b.2.2.1, clampK 0 (imgH - 1) b.2.2.2)

/-- One level of the decode loop shared by `get_bboxes_single` and
`get_bboxes_single_aug`: sigmoid the score rows, exponentiate the
regression rows, optionally keep only the `nms_pre` cells with the best
row-max score, and reconstruct the clamped boxes from the retained
cells. -/
def decodeLevel (sigF expF : K → K) (nmsPre : ℤ) (imgH imgW stride baseLen : K)
    (lp : LevelPred K) : List (K × K × K × K) × List (List K) :=
  let scores := lp.scores.map (fun row => row.map sigF)
  let preds := lp.preds.map (fun p => (expF p.1, expF p.2.1, expF p.2.2.1, expF p.2.2.2))
  let filtered :=
    if 0 < nmsPre ∧ nmsPre < (scores.length : ℤ) then
      let idxs := topkIdx nmsPre.toNat (scores.map rowMax)
      (idxs.map (fun i => preds.getD i (0, 0, 0, 0)),
       idxs.map (fun i => scores.getD i []),
       idxs.map (fun i => lp.pts.getD i (0, 0)))
    else (preds, scores, lp.pts)
  let boxes := (filtered.2.2.zip filtered.1).map
    (fun q => clampBox imgH imgW (decodeRawBox stride baseLen q.1 q.2))
  (boxes, filtered.2.1)

/-- `PPDetHead.get_bboxes_single_aug`: decode every level, concatenate
boxes and score rows across levels, optionally rescale the boxes by the
inverse scale factor, and prepend the all-zero background column to every
score row. -/
def getBBoxesSingleAug (sigF expF : K → K) (nmsPre : ℤ) (imgH imgW : K)
    (strides baseLens : List K) (rescale : Bool) (scaleFactor : K)
    (lps : List (LevelPred K)) : List (K × K × K × K) × List (List K) :=
  let results := (lps.zip (strides.zip baseLens)).map
    (fun q => decodeLevel sigF expF nmsPre imgH imgW q.2.1 q.2.2 q.1)
  let detBBoxes := (results.map Prod.fst).flatten
  let detBBoxes := if rescale then
      detBBoxes.map (fun b => (b.1 / scaleFactor, b.2.1 / scaleFactor,
        b.2.2.1 / scaleFactor, b.2.2.2 / scaleFactor))
    else detBBoxes
  let detScores := (results.map Prod.snd).flatten
  let detScores := detScores.map (fun row => 0 :: row)
  (detBBoxes, detScores)

/-- The part of `PPDetHead.get_bboxes_single` up to (excluding) the
external `multiclass_nms` call: decode every level, concatenate boxes and
score rows, optionally rescale, and prepend the background column — the
`(det_bboxes, det_scores)` pair handed to the suppression primitive. -/
def getBBoxesSinglePreNms (sigF expF : K → K) (nmsPre : ℤ) (imgH imgW : K)
    (strides baseLens : List K) (rescale : Bool) (scaleFactor : K)
    (lps : List (LevelPred K)) : List (K × K × K × K) × List (List K) :=
  let results := (lps.zip (strides.zip baseLens)).map
    (fun q => decodeLevel sigF expF nmsPre imgH imgW q.2.1 q.2.2 q.1)
  let detBBoxes := (results.map Prod.fst).flatten
  let detBBoxes := if rescale then
      detBBoxes.map (fun b => (b.1 / scaleFactor, b.2.1 / scaleFactor,
        b.2.2.1 / scaleFactor, b.2.2.2 / scaleFactor))
    else detBBoxes
  let detScores := (results.map Prod.snd).flatten
  let detScores := detScores.map (fun row => 0 :: row)
  (detBBoxes, detScores)

end Decoder

/-- C9: on identical inputs, `get_bboxes_single_aug` returns exactly the
`(det_bboxes, det_scores)` pair that `get_bboxes_single` computes
immediately before invoking the external suppression call — the two
per-level decode paths are equal functions. -/
theorem c9_decode_paths_equal {K : Type} [LinearOrderedField K]
    (sigF expF : K → K) (nmsPre : ℤ) (imgH imgW : K)
    (strides baseLens : List K) (rescale : Bool) (scaleFactor : K)
    (lps : List (LevelPred K)) :
    getBBoxesSingleAug sigF expF nmsPre imgH imgW strides baseLens rescale scaleFactor lps
      = getBBoxesSinglePreNms sigF expF nmsPre imgH imgW strides baseLens rescale scaleFactor lps :=
  rfl

/-- C4 (counterexample): at stride 8, base edge 16, cell `(y, x) =
(10.5, 20.5)` and raw regression prediction `log(1) = 0` per channel
(hence `exp = 1` per channel), the decoded pre-clamp box is *not* the
claimed degenerate `(168, 84, 168, 84)`. -/
theorem c4_counterexample :
    decodeRawBox (8 : ℝ) 16 (10.5, 20.5) (Real.exp 0, Real.exp 0, Real.exp 0, Real.exp 0)
      ≠ (168, 84, 168, 84) := by
  simp only [decodeRawBox, Real.exp_zero, ne_eq, Prod.mk.injEq, not_and]
  intro h
  norm_num at h

/-- C4 (amended): at stride 8, base edge 16, the cell `(y, x) =
(10.5, 20.5)` with raw regression prediction `log(1) = 0` per channel
(i.e. `[1,1,1,1]` after the exponential) decodes, before clamping, to the
box `(148, 68, 180, 100)`. -/
theorem c4_decode_scenario :
    decodeRawBox (8 : ℝ) 16 (10.5, 20.5) (Real.exp 0, Real.exp 0, Real.exp 0, Real.exp 0)
      = (148, 68, 180, 100) := by
  simp only [decodeRawBox, Real.exp_zero, Prod.mk.injEq]
  norm_num

section DecoderLemmas

variable {K : Type} [LinearOrderedField K]

lemma mem_insertIdxDesc {vals : List K} {i j : ℕ} :
    ∀ {l : List ℕ}, j ∈ insertIdxDesc vals i l → j = i ∨ j ∈ l := by
  intro l
  induction l with
  | nil =>
    intro h
    simp [insertIdxDesc] at h
    exact Or.inl h
  | cons u l ih =>
    intro h
    rw [insertIdxDesc] at h
    by_cases hle : vals.getD u 0 ≤ vals.getD i 0
    · rw [if_pos hle] at h
      rcases List.mem_cons.mp h with h' | h'
      · exact Or.inl h'
      · exact Or.inr h'
    · rw [if_neg hle] at h
      rcases List.mem_cons.mp h with h' | h'
      · exact Or.inr (h' ▸ List.mem_cons_self _ _)
      · rcases ih h' with h'' | h''
        · exact Or.inl h''
        · exact Or.inr (List.mem_cons_of_mem _ h'')

lemma mem_foldr_insertIdx {vals : List K} {j : ℕ} :
    ∀ {l : List ℕ}, j ∈ l.foldr (insertIdxDesc vals) [] → j ∈ l := by
  intro l
  induction l with
  | nil =>
    intro h
    simp at h
  | cons i l ih =>
    intro h
    rcases mem_insertIdxDesc (l := l.foldr (insertIdxDesc vals) []) h with h' | h'
    · exact h' ▸ List.mem_cons_self _ _
    · exact List.mem_cons_of_mem _ (ih h')

lemma mem_topkIdx_lt {vals : List K} {k j : ℕ} (h : j ∈ topkIdx k vals) : j < vals.length := by
  have h1 : j ∈ sortIdxDesc vals := List.mem_of_mem_take h
  have h2 : j ∈ List.range vals.length := mem_foldr_insertIdx h1
  exact List.mem_range.mp h2

lemma decodeLevel_length (sigF expF : K → K) (nmsPre : ℤ) (imgH imgW stride baseLen : K)
    (lp : LevelPred K) (hsp : lp.scores.length = lp.preds.length)
    (htp : lp.pts.length = lp.preds.length) :
    (decodeLevel sigF expF nmsPre imgH imgW stride baseLen lp).1.length
      = (decodeLevel sigF expF nmsPre imgH imgW stride baseLen lp).2.length := by
  simp only [decodeLevel]
  split_ifs with hc
  · simp [List.length_zip, List.length_map]
  · simp [List.length_zip, List.length_map, hsp, htp]

lemma decodeLevel_row_mem (sigF expF : K → K) (nmsPre : ℤ) (imgH imgW stride baseLen : K)
    (lp : LevelPred K) {row : List K}
    (h : row ∈ (decodeLevel sigF expF nmsPre imgH imgW stride baseLen lp).2) :
    ∃ row₀ ∈ lp.scores, row = row₀.map sigF := by
  simp only [decodeLevel] at h
  split_ifs at h with hc
  · obtain ⟨i, hi, rfl⟩ := List.mem_map.mp h
    have hlt : i < ((lp.scores.map (fun r => r.map sigF)).map rowMax).length :=
      mem_topkIdx_lt hi
    rw [List.length_map] at hlt
    rw [List.getD_eq_getElem _ _ hlt]
    have hmem : (lp.scores.map (fun r => r.map sigF))[i] ∈ lp.scores.map (fun r => r.map sigF) :=
      List.getElem_mem _
    obtain ⟨row₀, h0, heq⟩ := List.mem_map.mp hmem
    exact ⟨row₀, h0, heq.symm⟩
  · obtain ⟨row₀, h0, heq⟩ := List.mem_map.mp h
    exact ⟨row₀, h0, heq.symm⟩

lemma flatten_fst_snd_length {α β : Type} :
    ∀ (l : List (List α × List β)), (∀ p ∈ l, p.1.length = p.2.length) →
      (l.map Prod.fst).flatten.length = (l.map Prod.snd).flatten.length := by
  intro l
  induction l with
  | nil => intro _; rfl
  | cons p l ih =>
    intro h
    simp only [List.map_cons, List.flatten_cons, List.length_append]
    rw [h p (List.mem_cons_self _ _), ih (fun q hq => h q (List.mem_cons_of_mem _ hq))]

end DecoderLemmas

/-- C8 (amended): the score matrix handed to the suppression primitive has
one row per decoded box (`N` rows matching the `[N, 4]` box matrix) of
width `num_classes` — one prepended all-zero background column at index 0
followed by the `cls_out_channels = num_classes - 1` per-level sigmoid
score columns — not width `num_classes + 1`. -/
theorem c8_suppressor_matrix {K : Type} [LinearOrderedField K]
    (sigF expF : K → K) (nmsPre : ℤ) (imgH imgW : K)
    (strides baseLens : List K) (rescale : Bool) (scaleFactor : K)
    (lps : List (LevelPred K)) (numClasses : ℕ) (hnc : 1 ≤ numClasses)
    (hrows : ∀ lp ∈ lps, ∀ row ∈ lp.scores, row.length = clsOutChannels numClasses)
    (hlen : ∀ lp ∈ lps, lp.scores.length = lp.preds.length ∧ lp.pts.length = lp.preds.length) :
    (getBBoxesSinglePreNms sigF expF nmsPre imgH imgW strides baseLens rescale scaleFactor
        lps).1.length
      = (getBBoxesSinglePreNms sigF expF nmsPre imgH imgW strides baseLens rescale scaleFactor
        lps).2.length ∧
    ∀ row ∈ (getBBoxesSinglePreNms sigF expF nmsPre imgH imgW strides baseLens rescale
        scaleFactor lps).2,
      row.length = numClasses ∧ row.head? = some (0 : K) := by
  have hres : ∀ res ∈ (lps.zip (strides.zip baseLens)).map
      (fun q => decodeLevel sigF expF nmsPre imgH imgW q.2.1 q.2.2 q.1),
      res.1.length = res.2.length := by
    intro res hres
    obtain ⟨q, hq, rfl⟩ := List.mem_map.mp hres
    obtain ⟨lp, sbl⟩ := q
    have hq1 : lp ∈ lps := (List.of_mem_zip hq).1
    exact decodeLevel_length sigF expF nmsPre imgH imgW sbl.1 sbl.2 lp
      (hlen lp hq1).1 (hlen lp hq1).2
  have hflat := flatten_fst_snd_length _ hres
  constructor
  · simp only [getBBoxesSinglePreNms]
    rw [List.length_map]
    cases rescale
    · rw [if_neg Bool.false_ne_true]
      exact hflat
    · rw [if_pos rfl, List.length_map]
      exact hflat
  · intro row hrow
    simp only [getBBoxesSinglePreNms] at hrow
    obtain ⟨row', hrow', rfl⟩ := List.mem_map.mp hrow
    obtain ⟨rows, hrows', hrow''⟩ := List.mem_flatten.mp hrow'
    obtain ⟨res, hresm, rfl⟩ := List.mem_map.mp hrows'
    obtain ⟨q, hq, rfl⟩ := List.mem_map.mp hresm
    obtain ⟨lp, sbl⟩ := q
    have hq1 : lp ∈ lps := (List.of_mem_zip hq).1
    obtain ⟨row₀, h0, rfl⟩ :=
      decodeLevel_row_mem sigF expF nmsPre imgH imgW sbl.1 sbl.2 lp hrow''
    have hl := hrows lp hq1 row₀ h0
    rw [clsOutChannels] at hl
    refine ⟨?_, rfl⟩
    simp only [List.length_cons, List.length_map, hl]
    omega

/-- Concrete decoder fixture: one level, one cell at grid point
`(0.5, 0.5)`, two foreground score channels, regression prediction 0. -/
def lpFix : LevelPred ℚ := ⟨[[1, 2]], [(0, 0, 0, 0)], [(1/2, 1/2)]⟩

/-- Witness for C8 (amended) at a concrete one-level, one-cell input with
`num_classes = 3` (so `cls_out_channels = 2` score columns plus the
background column). -/
theorem c8_witness :
    (getBBoxesSinglePreNms (K := ℚ) id id (-1) 10 10 [2] [1] false 1 [lpFix]).1.length
      = (getBBoxesSinglePreNms (K := ℚ) id id (-1) 10 10 [2] [1] false 1 [lpFix]).2.length ∧
    ∀ row ∈ (getBBoxesSinglePreNms (K := ℚ) id id (-1) 10 10 [2] [1] false 1 [lpFix]).2,
      row.length = 3 ∧ row.head? = some (0 : ℚ) :=
  c8_suppressor_matrix id id (-1) 10 10 [2] [1] false 1 [lpFix] 3
    (by norm_num) (by with_unfolding_all decide) (by with_unfolding_all decide)

/-- C8 (counterexample): with `num_classes = 3` the score matrix handed to
suppression (decoding with the genuine logistic sigmoid and exponential)
has rows of width 3 (= `num_classes`), not `num_classes + 1 = 4`: its
list of row lengths is `[3]`, not `[4]`, on a one-cell input. -/
theorem c8_counterexample :
    ((getBBoxesSingleAug (fun t => 1 / (1 + Real.exp (-t))) Real.exp (-1) (100 : ℝ) 100
        [8] [16] false 1 [⟨[[0, 0]], [(0, 0, 0, 0)], [(1/2, 1/2)]⟩]).2).map List.length
      ≠ [3 + 1] := by
  have hfalse : ¬ (0 < (-1 : ℤ) ∧ (-1 : ℤ) <
      ((([[(0 : ℝ), 0]].map (fun row => row.map (fun t => 1 / (1 + Real.exp (-t))))).length :
        ℕ) : ℤ)) := by
    intro h
    exact absurd h.1 (by norm_num)
  simp [getBBoxesSingleAug, decodeLevel, hfalse]

section WellFormed

variable {K : Type} [LinearOrderedField K]

lemma clampK_le_of_le {lo hi v w : K} (h : v ≤ w) : clampK lo hi v ≤ clampK lo hi w :=
  min_le_min (max_le_max h le_rfl) le_rfl

lemma clampK_lower {lo hi : K} (h : lo ≤ hi) (v : K) : lo ≤ clampK lo hi v :=
  le_min (le_max_right _ _) h

lemma clampK_upper (lo hi v : K) : clampK lo hi v ≤ hi :=
  min_le_right _ _

lemma expTuple_nonneg {expF : K → K} (hexp : ∀ t, 0 < expF t) {preds : List (K × K × K × K)}
    {e : K × K × K × K}
    (he : e ∈ preds.map (fun p => (expF p.1, expF p.2.1, expF p.2.2.1, expF p.2.2.2))) :
    0 ≤ e.1 ∧ 0 ≤ e.2.1 ∧ 0 ≤ e.2.2.1 ∧ 0 ≤ e.2.2.2 := by
  obtain ⟨p₀, -, rfl⟩ := List.mem_map.mp he
  exact ⟨(hexp _).le, (hexp _).le, (hexp _).le, (hexp _).le⟩

lemma clampBox_wellformed {imgH imgW stride baseLen : K} {pt : K × K} {e : K × K × K × K}
    (hb : 0 ≤ baseLen) (he : 0 ≤ e.1 ∧ 0 ≤ e.2.1 ∧ 0 ≤ e.2.2.1 ∧ 0 ≤ e.2.2.2)
    (hW : 1 ≤ imgW) (hH : 1 ≤ imgH) :
    0 ≤ (clampBox imgH imgW (decodeRawBox stride baseLen pt e)).1 ∧
    (clampBox imgH imgW (decodeRawBox stride baseLen pt e)).1
      ≤ (clampBox imgH imgW (decodeRawBox stride baseLen pt e)).2.2.1 ∧
    (clampBox imgH imgW (decodeRawBox stride baseLen pt e)).2.2.1 ≤ imgW - 1 ∧
    0 ≤ (clampBox imgH imgW (decodeRawBox stride baseLen pt e)).2.1 ∧
    (clampBox imgH imgW (decodeRawBox stride baseLen pt e)).2.1
      ≤ (clampBox imgH imgW (decodeRawBox stride baseLen pt e)).2.2.2 ∧
    (clampBox imgH imgW (decodeRawBox stride baseLen pt e)).2.2.2 ≤ imgH - 1 := by
  have hW' : (0 : K) ≤ imgW - 1 := by linarith
  have hH' : (0 : K) ≤ imgH - 1 := by linarith
  have hx : stride * pt.2 - baseLen * e.1 ≤ stride * pt.2 + baseLen * e.2.2.1 := by
    have h1 := mul_nonneg hb he.1
    have h2 := mul_nonneg hb he.2.2.1
    linarith
  have hy : stride * pt.1 - baseLen * e.2.1 ≤ stride * pt.1 + baseLen * e.2.2.2 := by
    have h1 := mul_nonneg hb he.2.1
    have h2 := mul_nonneg hb he.2.2.2
    linarith
  exact ⟨clampK_lower hW' _, clampK_le_of_le hx, clampK_upper _ _ _,
    clampK_lower hH' _, clampK_le_of_le hy, clampK_upper _ _ _⟩

end WellFormed

/-- C10: with rescaling disabled, every box produced by the decoder is
well-formed and in-bounds — `0 ≤ x1 ≤ x2 ≤ img_w - 1` and
`0 ≤ y1 ≤ y2 ≤ img_h - 1` — for arbitrary raw regression predictions,
because the exponential keeps all four side offsets nonnegative and the
per-coordinate clamp is monotone. -/
theorem c10_decoded_boxes_wellformed {K : Type} [LinearOrderedField K]
    (sigF expF : K → K) (nmsPre : ℤ) (imgH imgW scaleFactor : K)
    (strides baseLens : List K) (lps : List (LevelPred K))
    (hexp : ∀ t, 0 < expF t) (hbase : ∀ b ∈ baseLens, 0 ≤ b)
    (hW : 1 ≤ imgW) (hH : 1 ≤ imgH) :
    ∀ bx ∈ (getBBoxesSinglePreNms sigF expF nmsPre imgH imgW strides baseLens false
        scaleFactor lps).1,
      0 ≤ bx.1 ∧ bx.1 ≤ bx.2.2.1 ∧ bx.2.2.1 ≤ imgW - 1 ∧
      0 ≤ bx.2.1 ∧ bx.2.1 ≤ bx.2.2.2 ∧ bx.2.2.2 ≤ imgH - 1 := by
  intro bx hbx
  simp only [getBBoxesSinglePreNms] at hbx
  rw [if_neg Bool.false_ne_true] at hbx
  obtain ⟨lvlboxes, hlb, hbx2⟩ := List.mem_flatten.mp hbx
  obtain ⟨res, hresm, rfl⟩ := List.mem_map.mp hlb
  obtain ⟨q, hq, rfl⟩ := List.mem_map.mp hresm
  obtain ⟨lp, sbl⟩ := q
  obtain ⟨s, bl⟩ := sbl
  have hbl : bl ∈ baseLens := (List.of_mem_zip (List.of_mem_zip hq).2).2
  have hb : 0 ≤ bl := hbase bl hbl
  simp only [decodeLevel] at hbx2
  split_ifs at hbx2 with hc
  · obtain ⟨pe, hpe, rfl⟩ := List.mem_map.mp hbx2
    obtain ⟨pt, e⟩ := pe
    have he2 : e ∈ (topkIdx nmsPre.toNat ((lp.scores.map (fun row => row.map sigF)).map rowMax)).map
        (fun i => (lp.preds.map
          (fun p => (expF p.1, expF p.2.1, expF p.2.2.1, expF p.2.2.2))).getD i (0, 0, 0, 0)) :=
      (List.of_mem_zip hpe).2
    obtain ⟨i, -, rfl⟩ := List.mem_map.mp he2
    by_cases hilt : i < (lp.preds.map
        (fun p => (expF p.1, expF p.2.1, expF p.2.2.1, expF p.2.2.2))).length
    · rw [List.getD_eq_getElem _ _ hilt]
      exact clampBox_wellformed hb (expTuple_nonneg hexp (List.getElem_mem _)) hW hH
    · rw [List.getD_eq_default _ _ (le_of_not_lt hilt)]
      exact clampBox_wellformed hb (by norm_num) hW hH
  · obtain ⟨pe, hpe, rfl⟩ := List.mem_map.mp hbx2
    obtain ⟨pt, e⟩ := pe
    have he2 := (List.of_mem_zip hpe).2
    exact clampBox_wellformed hb (expTuple_nonneg hexp he2) hW hH

/-- Witness for C10: a concrete one-level, one-cell decode over `ℚ` with a
positive "exponential"; the single output box `(0, 0, 2, 2)` is
well-formed inside a 10×10 image. -/
theorem c10_witness :
    0 ≤ (((0 : ℚ), (0 : ℚ), (2 : ℚ), (2 : ℚ))).1 ∧
    (((0 : ℚ), (0 : ℚ), (2 : ℚ), (2 : ℚ))).1 ≤ (((0 : ℚ), (0 : ℚ), (2 : ℚ), (2 : ℚ))).2.2.1 ∧
    (((0 : ℚ), (0 : ℚ), (2 : ℚ), (2 : ℚ))).2.2.1 ≤ (10 : ℚ) - 1 ∧
    0 ≤ (((0 : ℚ), (0 : ℚ), (2 : ℚ), (2 : ℚ))).2.1 ∧
    (((0 : ℚ), (0 : ℚ), (2 : ℚ), (2 : ℚ))).2.1 ≤ (((0 : ℚ), (0 : ℚ), (2 : ℚ), (2 : ℚ))).2.2.2 ∧
    (((0 : ℚ), (0 : ℚ), (2 : ℚ), (2 : ℚ))).2.2.2 ≤ (10 : ℚ) - 1 :=
  c10_decoded_boxes_wellformed id (fun _ => 1) (-1) 10 10 1 [2] [1] [lpFix]
    (fun _ => one_pos) (by with_unfolding_all decide)
    (by with_unfolding_all decide) (by with_unfolding_all decide)
    ((0 : ℚ), (0 : ℚ), (2 : ℚ), (2 : ℚ)) (by with_unfolding_all decide)

end PPDet
